import Mathlib

/-! Verification of the market sentiment analysis dashboard.

Shallow embedding of the data pipeline of src/app.py: loading the two
fear-and-greed CSV tables, aligning them to the common date range and
merging on exact date equality, selecting a correlation window, computing
Pearson correlation coefficients, and classifying them into insight text.

Dates are modelled as integers (days); numeric columns as rationals.
Float NaN propagation is modelled by Option: none stands for NaN, and
comparisons against none are false, as in IEEE semantics. -/

namespace App

/-- A row of the crypto fear-and-greed table: date, index value, BTC price. -/
structure CryptoRow where
  date : Int
  fear_greed_index : ℚ
  btc_price : ℚ
deriving DecidableEq, Repr

/-- A row of the stock fear-and-greed table: date, index value, index price. -/
structure StockRow where
  date : Int
  fear_greed_index : ℚ
  price : ℚ
deriving DecidableEq, Repr

/-- A row of the merged table: one date with both markets observed, column
names carrying the crypto and stock suffixes produced by the merge. -/
structure MergedRow where
  date : Int
  fear_greed_index_crypto : ℚ
  btc_price : ℚ
  fear_greed_index_stock : ℚ
  price : ℚ
deriving DecidableEq, Repr

/-- Minimum of a date column, as pandas min; the value on an empty column is
a junk default, matching that pandas would give NaN there. -/
def dMin : List Int → Int
  | [] => 0
  | a :: t => t.foldl min a

/-- Maximum of a date column, as pandas max. -/
def dMax : List Int → Int
  | [] => 0
  | a :: t => t.foldl max a

theorem foldl_min_le_init (t : List Int) (a : Int) : t.foldl min a ≤ a := by
  induction t generalizing a with
  | nil => exact le_refl a
  | cons b t ih => exact le_trans (ih (min a b)) (min_le_left a b)

theorem foldl_min_le_mem (t : List Int) (a x : Int) (hx : x ∈ t) :
    t.foldl min a ≤ x := by
  induction t generalizing a with
  | nil => cases hx
  | cons b t ih =>
    rcases List.mem_cons.mp hx with h | h
    · subst h
      exact le_trans (foldl_min_le_init t (min a x)) (min_le_right a x)
    · exact ih (min a b) h

theorem dMin_le (l : List Int) (x : Int) (hx : x ∈ l) : dMin l ≤ x := by
  cases l with
  | nil => cases hx
  | cons a t =>
    rcases List.mem_cons.mp hx with h | h
    · subst h
      exact foldl_min_le_init t x
    · exact foldl_min_le_mem t a x h

theorem init_le_foldl_max (t : List Int) (a : Int) : a ≤ t.foldl max a := by
  induction t generalizing a with
  | nil => exact le_refl a
  | cons b t ih => exact le_trans (le_max_left a b) (ih (max a b))

theorem mem_le_foldl_max (t : List Int) (a x : Int) (hx : x ∈ t) :
    x ≤ t.foldl max a := by
  induction t generalizing a with
  | nil => cases hx
  | cons b t ih =>
    rcases List.mem_cons.mp hx with h | h
    · subst h
      exact le_trans (le_max_right a x) (init_le_foldl_max t (max a x))
    · exact ih (max a b) h

theorem le_dMax (l : List Int) (x : Int) (hx : x ∈ l) : x ≤ dMax l := by
  cases l with
  | nil => cases hx
  | cons a t =>
    rcases List.mem_cons.mp hx with h | h
    · subst h
      exact init_le_foldl_max t x
    · exact mem_le_foldl_max t a x h

/-- Lower bound of the common date range: the larger of the two column minima. -/
def min_date (c : List CryptoRow) (s : List StockRow) : Int :=
  max (dMin (c.map CryptoRow.date)) (dMin (s.map StockRow.date))

/-- Upper bound of the common date range: the smaller of the two column maxima. -/
def max_date (c : List CryptoRow) (s : List StockRow) : Int :=
  min (dMax (c.map CryptoRow.date)) (dMax (s.map StockRow.date))

/-- The crypto table restricted to the common date range. -/
def crypto_filtered (c : List CryptoRow) (s : List StockRow) : List CryptoRow :=
  c.filter fun r => decide (min_date c s ≤ r.date) && decide (r.date ≤ max_date c s)

/-- The stock table restricted to the common date range. -/
def stock_filtered (c : List CryptoRow) (s : List StockRow) : List StockRow :=
  s.filter fun r => decide (min_date c s ≤ r.date) && decide (r.date ≤ max_date c s)

/-- The inner merge of the two filtered tables on exact date equality:
every pair of a crypto row and a stock row with equal dates yields one
merged row carrying both sets of fields. -/
def merged_df (c : List CryptoRow) (s : List StockRow) : List MergedRow :=
  (crypto_filtered c s).flatMap fun cr =>
    ((stock_filtered c s).filter fun sr => decide (sr.date = cr.date)).map fun sr =>
      { date := cr.date
        fear_greed_index_crypto := cr.fear_greed_index
        btc_price := cr.btc_price
        fear_greed_index_stock := sr.fear_greed_index
        price := sr.price }

/-- The five correlation-period choices offered in the sidebar. -/
inductive Window where
  | allTime
  | lastYear
  | lastSixMonths
  | lastThreeMonths
  | lastMonth
deriving DecidableEq, Repr

/-- Maximum date of the merged table. -/
def merged_date_max (m : List MergedRow) : Int := dMax (m.map MergedRow.date)

/-- The correlation input: the full merged table filtered by the chosen
period, keeping rows with date at least the maximum date minus the period
length, inclusively; All Time applies no filter. -/
def corr_data (m : List MergedRow) : Window → List MergedRow
  | Window.lastYear => m.filter fun r => decide (merged_date_max m - 365 ≤ r.date)
  | Window.lastSixMonths => m.filter fun r => decide (merged_date_max m - 180 ≤ r.date)
  | Window.lastThreeMonths => m.filter fun r => decide (merged_date_max m - 90 ≤ r.date)
  | Window.lastMonth => m.filter fun r => decide (merged_date_max m - 30 ≤ r.date)
  | Window.allTime => m

/-- The chart view: the full merged table filtered to the picked date range
when the picker holds a complete range, the full table otherwise. -/
def merged_filtered (m : List MergedRow) : Option (Int × Int) → List MergedRow
  | some (s, e) => m.filter fun r => decide (s ≤ r.date) && decide (r.date ≤ e)
  | none => m

/-- The two views rendered from one merged table: the chart view from the
date-range picker and the correlation input from the window chooser. -/
def views (m : List MergedRow) (dr : Option (Int × Int)) (w : Window) :
    List MergedRow × List MergedRow :=
  (merged_filtered m dr, corr_data m w)

/-- Mean of a numeric column, as used by the Pearson formula. -/
def mean (l : List ℚ) : ℚ := l.sum / l.length

/-- Pearson numerator: sum of products of centered paired values. -/
def cNum (ps : List (ℚ × ℚ)) : ℚ :=
  (ps.map fun p =>
    (p.1 - mean (ps.map Prod.fst)) * (p.2 - mean (ps.map Prod.snd))).sum

/-- Centered sum of squares of the first series. -/
def cDenX (ps : List (ℚ × ℚ)) : ℚ :=
  (ps.map fun p => (p.1 - mean (ps.map Prod.fst)) ^ 2).sum

/-- Centered sum of squares of the second series. -/
def cDenY (ps : List (ℚ × ℚ)) : ℚ :=
  (ps.map fun p => (p.2 - mean (ps.map Prod.snd)) ^ 2).sum

/-- Pearson product-moment correlation of a list of paired observations,
as pandas corr computes it: undefined (none, rendered NaN) when either
centered sum of squares vanishes, which covers fewer than two pairs and
zero variance; otherwise the centered covariance over the product of the
standard deviations. -/
noncomputable def pearson (ps : List (ℚ × ℚ)) : Option ℝ :=
  if 0 < cDenX ps ∧ 0 < cDenY ps then
    some ((cNum ps : ℝ) / Real.sqrt ((cDenX ps : ℝ) * (cDenY ps : ℝ)))
  else none

/-- Sentiment-vs-sentiment correlation over the correlation input. -/
noncomputable def correlation_fg (m : List MergedRow) : Option ℝ :=
  pearson (m.map fun r => (r.fear_greed_index_crypto, r.fear_greed_index_stock))

/-- BTC-price-vs-crypto-sentiment correlation. -/
noncomputable def correlation_price_fg_crypto (m : List MergedRow) : Option ℝ :=
  pearson (m.map fun r => (r.btc_price, r.fear_greed_index_crypto))

/-- Index-price-vs-stock-sentiment correlation. -/
noncomputable def correlation_price_fg_stock (m : List MergedRow) : Option ℝ :=
  pearson (m.map fun r => (r.price, r.fear_greed_index_stock))

/-- Price-vs-price correlation. -/
noncomputable def correlation_price (m : List MergedRow) : Option ℝ :=
  pearson (m.map fun r => (r.btc_price, r.price))

/-- Qualitative strength bucket of an insight sentence. -/
inductive Strength where
  | strong
  | moderate
  | weak
deriving DecidableEq, Repr

/-- Directional wording selected by the sign of the coefficient. -/
inductive Direction where
  | positive
  | negative
deriving DecidableEq, Repr

/-- The content of one insight sentence: its strength bucket, the
directional wording when present, and the coefficient value interpolated
into the text (none renders as nan). -/
structure Insight where
  strength : Strength
  direction : Option Direction
  shown : Option ℝ

/-- Which coefficient an insight sentence describes. -/
inductive Topic where
  | sentiment
  | price
deriving DecidableEq, Repr

/-- An emitted insight: its topic template and its content. -/
structure KeyInsight where
  topic : Topic
  body : Insight

/-- Float comparison abs of a against threshold c, with NaN modelled as
none: any comparison with NaN is false. -/
def absGT (a : Option ℝ) (c : ℝ) : Prop :=
  match a with
  | none => False
  | some x => c < |x|

/-- Float comparison a greater than zero, false on NaN. -/
def isPos (a : Option ℝ) : Prop :=
  match a with
  | none => False
  | some x => 0 < x

open Classical in
/-- The branch structure generating one insight sentence: strong above
seven tenths in absolute value, else moderate above three tenths, else
weak; directional wording by sign in the first two branches only. The
possibly-NaN float is threaded through as in the source. -/
noncomputable def classifyF (r : Option ℝ) : Insight :=
  if absGT r (7 / 10) then
    { strength := Strength.strong
      direction := some (if isPos r then Direction.positive else Direction.negative)
      shown := r }
  else if absGT r (3 / 10) then
    { strength := Strength.moderate
      direction := some (if isPos r then Direction.positive else Direction.negative)
      shown := r }
  else
    { strength := Strength.weak, direction := none, shown := r }

/-- Classification of a definite coefficient value. -/
noncomputable def classify (r : ℝ) : Insight := classifyF (some r)

/-- The Key Insights block: exactly two sentences are appended, the first
classifying the sentiment-vs-sentiment coefficient, the second the
price-vs-price coefficient; the two price-vs-sentiment coefficients are in
scope but unused. -/
noncomputable def insights (fg pr _pfgc _pfgs : Option ℝ) : List KeyInsight :=
  [⟨Topic.sentiment, classifyF fg⟩, ⟨Topic.price, classifyF pr⟩]

/-- Suffix of data file names considered by the loader. -/
def csvSuffix : String := ".csv"

/-- The latest data file of a directory listing: the lexicographically
maximal csv name, none when the listing holds no csv file. -/
def latest_file (files : List String) : Option String :=
  (files.filter fun f => f.endsWith csvSuffix).max?

/-- Outcome of the load step. A missing directory makes the listing call
raise, crashing the render; an empty listing shows the data-not-found
error and yields no tables; otherwise the two chosen files are loaded. -/
inductive LoadResult where
  | crash
  | failure
  | success (cryptoFile stockFile : String)

/-- The loader: list both directories, pick the latest csv of each, and
only when both exist read and return the two tables. -/
def load_data (cryptoDir stockDir : Option (List String)) : LoadResult :=
  match cryptoDir with
  | none => LoadResult.crash
  | some cfs =>
    match stockDir with
    | none => LoadResult.crash
    | some sfs =>
      match latest_file cfs, latest_file sfs with
      | some cf, some sf => LoadResult.success cf sf
      | _, _ => LoadResult.failure

/-- The top-level guard: the merge and all Engine computation run only
when the loader returned both tables. -/
def merge_attempted : LoadResult → Bool
  | LoadResult.success _ _ => true
  | _ => false

/-- Whether a user-visible error is presented: the data-not-found message
on a failed load, the rendered exception on a crash. -/
def error_shown : LoadResult → Bool
  | LoadResult.success _ _ => false
  | _ => true

/-- A source directory that is empty or missing. -/
def dirEmptyOrMissing (d : Option (List String)) : Prop :=
  d = none ∨ d = some []

/-- A one-row crypto table with all dates before the stock table. -/
def cDisjoint : List CryptoRow := [⟨0, 1, 1⟩]

/-- A one-row stock table with all dates after the crypto table. -/
def sDisjoint : List StockRow := [⟨10, 1, 1⟩]

/-- Claim C9: on the All Time window the correlation input is exactly the
merged table, with no row dropped or added. -/
theorem c9_all_time_identity (m : List MergedRow) :
    corr_data m Window.allTime = m := rfl

/-- Claim C6: the chart view and the correlation input are independently
filtered views of the same merged table: the chart view equals the merged
table restricted to the picked range, the correlation input equals the
merged table restricted by the chosen window, and neither changes when the
other selector changes. -/
theorem c6_independent_views (m : List MergedRow) (dr dr' : Option (Int × Int))
    (w w' : Window) :
    (views m dr w).1 = merged_filtered m dr ∧
    (views m dr w).2 = corr_data m w ∧
    (views m dr w).1 = (views m dr w').1 ∧
    (views m dr w).2 = (views m dr' w).2 :=
  ⟨rfl, rfl, rfl, rfl⟩

/-- Claim C10: insight generation emits exactly two insights, the first
classifying the sentiment-vs-sentiment coefficient and the second the
price-vs-price coefficient, and the two price-vs-sentiment coefficients
never influence the output. -/
theorem c10_insights_shape (fg pr a b a' b' : Option ℝ) :
    insights fg pr a b = [⟨Topic.sentiment, classifyF fg⟩, ⟨Topic.price, classifyF pr⟩] ∧
    insights fg pr a b = insights fg pr a' b' ∧
    (insights fg pr a b).length = 2 :=
  ⟨rfl, rfl, rfl⟩

/-- Claim C5: each named window keeps exactly the rows whose date is at
least the maximum merged date minus 365, 180, 90 or 30 days, with the
boundary inclusive, and All Time applies no filter. -/
theorem c5_window_selection (m : List MergedRow) :
    corr_data m Window.allTime = m ∧
    (∀ r, r ∈ corr_data m Window.lastYear ↔
      r ∈ m ∧ merged_date_max m - 365 ≤ r.date) ∧
    (∀ r, r ∈ corr_data m Window.lastSixMonths ↔
      r ∈ m ∧ merged_date_max m - 180 ≤ r.date) ∧
    (∀ r, r ∈ corr_data m Window.lastThreeMonths ↔
      r ∈ m ∧ merged_date_max m - 90 ≤ r.date) ∧
    (∀ r, r ∈ corr_data m Window.lastMonth ↔
      r ∈ m ∧ merged_date_max m - 30 ≤ r.date) := by
  refine ⟨rfl, ?_, ?_, ?_, ?_⟩ <;> intro r <;>
    simp [corr_data, List.mem_filter]

/-- Claim C7: when either source directory is empty or missing the loader
does not produce tables, a user-visible error is presented, and the merge
and Engine computations are not attempted. -/
theorem c7_missing_data_guard (cd sd : Option (List String))
    (h : dirEmptyOrMissing cd ∨ dirEmptyOrMissing sd) :
    merge_attempted (load_data cd sd) = false ∧
    error_shown (load_data cd sd) = true := by
  rcases h with h | h <;> rcases h with h | h <;> subst h
  · exact ⟨rfl, rfl⟩
  · cases sd with
    | none => exact ⟨rfl, rfl⟩
    | some sfs => exact ⟨rfl, rfl⟩
  · cases cd with
    | none => exact ⟨rfl, rfl⟩
    | some cfs =>
      simp only [load_data]
      cases hl : latest_file cfs with
      | none => exact ⟨rfl, rfl⟩
      | some f => exact ⟨rfl, rfl⟩
  · cases cd with
    | none => exact ⟨rfl, rfl⟩
    | some cfs =>
      simp only [load_data]
      cases hl : latest_file cfs with
      | none => exact ⟨rfl, rfl⟩
      | some f => exact ⟨rfl, rfl⟩

/-- Witness for claim C7 at a concrete pair of empty directories. -/
theorem c7_missing_data_guard_witness :
    merge_attempted (load_data (some []) (some [])) = false ∧
    error_shown (load_data (some []) (some [])) = true :=
  c7_missing_data_guard (some []) (some []) (Or.inl (Or.inr rfl))

/-- Counterexample for claim C2: on entirely disjoint date ranges the code
raises no error; the bounds cross and an empty merged table is produced,
after which the render proceeds. -/
theorem c2_disjoint_counterexample :
    min_date cDisjoint sDisjoint = 10 ∧
    max_date cDisjoint sDisjoint = 0 ∧
    max_date cDisjoint sDisjoint < min_date cDisjoint sDisjoint ∧
    merged_df cDisjoint sDisjoint = [] :=
  ⟨by decide, by decide, by decide, by decide⟩

/-- Claim C2 as amended: the bounds are the max of the minima and the min
of the maxima, and when they cross both filtered tables and the merged
table are empty; no dedicated no-overlap failure exists in the code. -/
theorem c2_no_overlap_amended (c : List CryptoRow) (s : List StockRow)
    (h : max_date c s < min_date c s) :
    min_date c s = max (dMin (c.map CryptoRow.date)) (dMin (s.map StockRow.date)) ∧
    max_date c s = min (dMax (c.map CryptoRow.date)) (dMax (s.map StockRow.date)) ∧
    crypto_filtered c s = [] ∧ stock_filtered c s = [] ∧ merged_df c s = [] := by
  have hc : crypto_filtered c s = [] := by
    refine List.filter_eq_nil_iff.mpr fun r hr => ?_
    simp only [Bool.and_eq_true, decide_eq_true_eq, not_and]
    intro h1 h2
    omega
  have hs : stock_filtered c s = [] := by
    refine List.filter_eq_nil_iff.mpr fun r hr => ?_
    simp only [Bool.and_eq_true, decide_eq_true_eq, not_and]
    intro h1 h2
    omega
  refine ⟨rfl, rfl, hc, hs, ?_⟩
  simp [merged_df, hc]

/-- Witness for the amended claim C2 at concrete disjoint tables. -/
theorem c2_no_overlap_amended_witness :
    crypto_filtered cDisjoint sDisjoint = [] ∧
    stock_filtered cDisjoint sDisjoint = [] ∧
    merged_df cDisjoint sDisjoint = [] :=
  let h := c2_no_overlap_amended cDisjoint sDisjoint (by decide)
  ⟨h.2.2.1, h.2.2.2.1, h.2.2.2.2⟩

/-- Claim C4: a date occurs in the merged table exactly when it occurs in
both source tables; the join is on exact date equality and rows present in
only one table are dropped. -/
theorem c4_merged_membership (c : List CryptoRow) (s : List StockRow) (d : Int) :
    d ∈ (merged_df c s).map MergedRow.date ↔
      d ∈ c.map CryptoRow.date ∧ d ∈ s.map StockRow.date := by
  constructor
  · intro h
    simp only [List.mem_map, merged_df, List.mem_flatMap, List.mem_filter,
      crypto_filtered, stock_filtered, Bool.and_eq_true, decide_eq_true_eq] at h
    obtain ⟨row, ⟨cr, ⟨⟨hcr, hb1, hb2⟩, sr, ⟨⟨⟨hsr, hb3, hb4⟩, hde⟩, hrow⟩⟩⟩, hd⟩ := h
    subst hrow
    exact ⟨List.mem_map.mpr ⟨cr, hcr, hd⟩,
      List.mem_map.mpr ⟨sr, hsr, by simpa [hde] using hd⟩⟩
  · rintro ⟨hdc, hds⟩
    obtain ⟨cr, hcr, hcd⟩ := List.mem_map.mp hdc
    obtain ⟨sr, hsr, hsd⟩ := List.mem_map.mp hds
    have h1 : min_date c s ≤ cr.date := by
      rw [hcd]
      exact max_le (dMin_le _ _ hdc) (dMin_le _ _ hds)
    have h2 : cr.date ≤ max_date c s := by
      rw [hcd]
      exact le_min (le_dMax _ _ hdc) (le_dMax _ _ hds)
    refine List.mem_map.mpr ⟨⟨cr.date, cr.fear_greed_index, cr.btc_price,
      sr.fear_greed_index, sr.price⟩, ?_, hcd⟩
    simp only [merged_df, List.mem_flatMap, List.mem_map, List.mem_filter,
      crypto_filtered, stock_filtered, Bool.and_eq_true, decide_eq_true_eq]
    exact ⟨cr, ⟨hcr, h1, h2⟩, sr, ⟨⟨hsr, by omega, by omega⟩, by omega⟩, rfl⟩

/-- A list sum of mapped values as a sum over positions. -/
theorem sum_map_eq_fin_sum (l : List (ℚ × ℚ)) (h : ℚ × ℚ → ℚ) :
    (l.map h).sum = ∑ i : Fin l.length, h (l.get i) := by
  induction l with
  | nil => simp
  | cons a t ih =>
    simp only [List.map_cons, List.sum_cons, List.length_cons, Fin.sum_univ_succ,
      List.get_cons_zero, ih]
    rfl

/-- Cauchy-Schwarz for the centered sums of a list of pairs. -/
theorem cauchy_schwarz_centered (ps : List (ℚ × ℚ)) :
    cNum ps ^ 2 ≤ cDenX ps * cDenY ps := by
  rw [cNum, cDenX, cDenY, sum_map_eq_fin_sum, sum_map_eq_fin_sum, sum_map_eq_fin_sum]
  exact Finset.sum_mul_sq_le_sq_mul_sq Finset.univ
    (fun i => (ps.get i).1 - mean (ps.map Prod.fst))
    (fun i => (ps.get i).2 - mean (ps.map Prod.snd))

/-- Any defined Pearson coefficient lies in the closed interval from
negative one to one. -/
theorem pearson_bound (ps : List (ℚ × ℚ)) (r : ℝ) (h : pearson ps = some r) :
    -1 ≤ r ∧ r ≤ 1 := by
  by_cases hd : 0 < cDenX ps ∧ 0 < cDenY ps
  · rw [pearson, if_pos hd] at h
    obtain ⟨hdx, hdy⟩ := hd
    have hval : ((cNum ps : ℝ)) / Real.sqrt ((cDenX ps : ℝ) * (cDenY ps : ℝ)) = r :=
      Option.some.inj h
    have hcs : ((cNum ps : ℝ)) ^ 2 ≤ (cDenX ps : ℝ) * (cDenY ps : ℝ) := by
      exact_mod_cast cauchy_schwarz_centered ps
    have habs : |(cNum ps : ℝ)| ≤ Real.sqrt ((cDenX ps : ℝ) * (cDenY ps : ℝ)) := by
      rw [← Real.sqrt_sq_eq_abs]
      exact Real.sqrt_le_sqrt hcs
    have hrle : |r| ≤ 1 := by
      rw [← hval, abs_div, abs_of_nonneg (Real.sqrt_nonneg _)]
      exact div_le_one_of_le₀ habs (Real.sqrt_nonneg _)
    exact abs_le.mp hrle
  · rw [pearson, if_neg hd] at h
    cases h

/-- Claim C8: each of the four coefficients produced over a merged table
is either a defined value between negative one and one, or is the
distinct undefined value none; no defined value falls outside the range. -/
theorem c8_correlation_range (m : List MergedRow) (r : ℝ) :
    (correlation_fg m = some r → -1 ≤ r ∧ r ≤ 1) ∧
    (correlation_price_fg_crypto m = some r → -1 ≤ r ∧ r ≤ 1) ∧
    (correlation_price_fg_stock m = some r → -1 ≤ r ∧ r ≤ 1) ∧
    (correlation_price m = some r → -1 ≤ r ∧ r ≤ 1) :=
  ⟨fun h => pearson_bound _ r h, fun h => pearson_bound _ r h,
    fun h => pearson_bound _ r h, fun h => pearson_bound _ r h⟩

/-- A two-row merged table on which every series is zero then one. -/
def mPair : List MergedRow := [⟨0, 0, 0, 0, 0⟩, ⟨1, 1, 1, 1, 1⟩]

/-- On the two-observation table the sentiment correlation evaluates to
exactly one. -/
theorem correlation_fg_mPair : correlation_fg mPair = some 1 := by
  have hn : cNum [((0:ℚ), (0:ℚ)), (1, 1)] = 1 / 2 := by
    norm_num [cNum, mean]
  have hx : cDenX [((0:ℚ), (0:ℚ)), (1, 1)] = 1 / 2 := by
    norm_num [cDenX, mean]
  have hy : cDenY [((0:ℚ), (0:ℚ)), (1, 1)] = 1 / 2 := by
    norm_num [cDenY, mean]
  have hmap : correlation_fg mPair = pearson [((0:ℚ), (0:ℚ)), (1, 1)] := by
    simp [correlation_fg, mPair]
  rw [hmap, pearson, if_pos ⟨by rw [hx]; norm_num, by rw [hy]; norm_num⟩, hn, hx, hy]
  have hsq : ((((1:ℚ)/2 : ℚ) : ℝ)) * (((1:ℚ)/2 : ℚ) : ℝ) = ((1:ℝ)/2) ^ 2 := by
    push_cast
    ring
  rw [hsq, Real.sqrt_sq (by norm_num : (0:ℝ) ≤ 1/2)]
  push_cast
  norm_num

/-- Witness for claim C8: the coefficient computed on the concrete
two-row table is defined and the theorem places it in range. -/
theorem c8_correlation_range_witness : -1 ≤ (1:ℝ) ∧ (1:ℝ) ≤ 1 :=
  (c8_correlation_range mPair 1).1 correlation_fg_mPair

theorem classify_strong_pos {r : ℝ} (h : 7 / 10 < |r|) (hp : 0 < r) :
    classify r = ⟨Strength.strong, some Direction.positive, some r⟩ := by
  simp [classify, classifyF, absGT, isPos, h, hp]

theorem classify_strong_neg {r : ℝ} (h : 7 / 10 < |r|) (hp : ¬ 0 < r) :
    classify r = ⟨Strength.strong, some Direction.negative, some r⟩ := by
  simp [classify, classifyF, absGT, isPos, h, hp]

theorem classify_moderate_pos {r : ℝ} (h7 : ¬ 7 / 10 < |r|) (h3 : 3 / 10 < |r|)
    (hp : 0 < r) :
    classify r = ⟨Strength.moderate, some Direction.positive, some r⟩ := by
  simp [classify, classifyF, absGT, isPos, h7, h3, hp]

theorem classify_moderate_neg {r : ℝ} (h7 : ¬ 7 / 10 < |r|) (h3 : 3 / 10 < |r|)
    (hp : ¬ 0 < r) :
    classify r = ⟨Strength.moderate, some Direction.negative, some r⟩ := by
  simp [classify, classifyF, absGT, isPos, h7, h3, hp]

theorem classify_weak {r : ℝ} (h3 : ¬ 3 / 10 < |r|) :
    classify r = ⟨Strength.weak, none, some r⟩ := by
  have h7 : ¬ 7 / 10 < |r| := fun h => h3 (by linarith)
  simp [classify, classifyF, absGT, h7, h3]

/-- Claim C3: the classification is strong exactly above seven tenths in
absolute value, moderate exactly between three tenths exclusive and seven
tenths inclusive, weak exactly at or below three tenths; the boundary
values seven tenths and three tenths classify as moderate and weak; and
directional wording, selected by the sign, appears exactly outside the
weak bucket. -/
theorem c3_classify_thresholds (r : ℝ) :
    ((classify r).strength = Strength.strong ↔ 7 / 10 < |r|) ∧
    ((classify r).strength = Strength.moderate ↔ 3 / 10 < |r| ∧ |r| ≤ 7 / 10) ∧
    ((classify r).strength = Strength.weak ↔ |r| ≤ 3 / 10) ∧
    ((classify r).direction = some Direction.positive ↔ 3 / 10 < |r| ∧ 0 < r) ∧
    ((classify r).direction = some Direction.negative ↔ 3 / 10 < |r| ∧ r ≤ 0) ∧
    ((classify r).direction = none ↔ |r| ≤ 3 / 10) ∧
    (classify ((7:ℝ) / 10)).strength = Strength.moderate ∧
    (classify ((3:ℝ) / 10)).strength = Strength.weak := by
  have hb7 : (classify ((7:ℝ) / 10)).strength = Strength.moderate := by
    rw [classify_moderate_pos (by rw [abs_of_nonneg] <;> norm_num)
      (by rw [abs_of_nonneg] <;> norm_num) (by norm_num)]
  have hb3 : (classify ((3:ℝ) / 10)).strength = Strength.weak := by
    rw [classify_weak (by rw [abs_of_nonneg] <;> norm_num)]
  by_cases h7 : 7 / 10 < |r|
  · have h3 : 3 / 10 < |r| := by linarith
    by_cases hp : 0 < r
    · rw [classify_strong_pos h7 hp]
      refine ⟨by simp [h7], by constructor <;> intro hh <;> [cases hh; linarith], ?_,
        by simp [h3, hp], ?_, by simp; linarith, hb7, hb3⟩
      · constructor <;> intro hh <;> [cases hh; linarith]
      · constructor <;> intro hh <;> [cases hh; linarith]
    · rw [classify_strong_neg h7 hp]
      refine ⟨by simp [h7], by constructor <;> intro hh <;> [cases hh; linarith], ?_,
        ?_, by simp [h3]; linarith, by simp; linarith, hb7, hb3⟩
      · constructor <;> intro hh <;> [cases hh; linarith]
      · constructor <;> intro hh <;> [(cases hh); (exfalso; exact hp hh.2)]
  · by_cases h3 : 3 / 10 < |r|
    · by_cases hp : 0 < r
      · rw [classify_moderate_pos h7 h3 hp]
        refine ⟨by constructor <;> intro hh <;> [cases hh; linarith], ?_, ?_,
          by simp [h3, hp], ?_, by simp; linarith, hb7, hb3⟩
        · simp only [true_iff]
          exact ⟨h3, by linarith [not_lt.mp h7]⟩
        · constructor <;> intro hh <;> [cases hh; linarith]
        · constructor <;> intro hh <;> [(cases hh); (exfalso; linarith)]
      · rw [classify_moderate_neg h7 h3 hp]
        refine ⟨by constructor <;> intro hh <;> [cases hh; linarith], ?_, ?_,
          ?_, by simp [h3]; linarith, by simp; linarith, hb7, hb3⟩
        · simp only [true_iff]
          exact ⟨h3, by linarith [not_lt.mp h7]⟩
        · constructor <;> intro hh <;> [cases hh; linarith]
        · constructor <;> intro hh <;> [(cases hh); (exfalso; exact hp hh.2)]
    · rw [classify_weak h3]
      push_neg at h3
      refine ⟨by constructor <;> intro hh <;> [cases hh; linarith], ?_, by simp [h3],
        by constructor <;> intro hh <;> [cases hh; linarith], ?_, by simp [h3],
        hb7, hb3⟩
      · constructor <;> intro hh <;> [cases hh; linarith [hh.1]]
      · constructor <;> intro hh <;> [cases hh; linarith [hh.1]]

/-- A one-row merged table: a degenerate input for every coefficient. -/
def mOne : List MergedRow := [⟨0, 50, 100, 60, 200⟩]

/-- The Pearson coefficient of a single pair is undefined. -/
theorem pearson_single (p : ℚ × ℚ) : pearson [p] = none := by
  rw [pearson, if_neg]
  rintro ⟨hx, hy⟩
  have hz : cDenX [p] = 0 := by
    norm_num [cDenX, mean]
  rw [hz] at hx
  exact lt_irrefl 0 hx

/-- The weak branch absorbs the NaN coefficient. -/
theorem classifyF_none : classifyF none = ⟨Strength.weak, none, none⟩ := by
  rw [classifyF, if_neg (fun h => h.elim), if_neg (fun h => h.elim)]

/-- Claim C1 evaluated on the code at the failing input: on a one-row
merged table every coefficient is the NaN value none, it is not coerced
to zero, and the insight generation silently consumes it into the weak
bucket, rendering a weak-correlation sentence with a NaN value instead of
surfacing a distinct undefined state. -/
theorem c1_degenerate_nan_consumed :
    correlation_fg mOne = none ∧
    correlation_price mOne = none ∧
    correlation_fg mOne ≠ some 0 ∧
    insights (correlation_fg mOne) (correlation_price mOne)
        (correlation_price_fg_crypto mOne) (correlation_price_fg_stock mOne) =
      [⟨Topic.sentiment, ⟨Strength.weak, none, none⟩⟩,
        ⟨Topic.price, ⟨Strength.weak, none, none⟩⟩] := by
  have hfg : correlation_fg mOne = none := by
    have : correlation_fg mOne = pearson [((50:ℚ), (60:ℚ))] := by
      simp [correlation_fg, mOne]
    rw [this, pearson_single]
  have hpr : correlation_price mOne = none := by
    have : correlation_price mOne = pearson [((100:ℚ), (200:ℚ))] := by
      simp [correlation_price, mOne]
    rw [this, pearson_single]
  refine ⟨hfg, hpr, by rw [hfg]; exact fun h => Option.noConfusion h, ?_⟩
  rw [insights, hfg, hpr, classifyF_none]

end App
